import Mathlib

/-!
Verification of the mixpanel Go client (`mixpanel.go`).

The client is shallowly embedded: strings are `List Char`, the JSON values
that populate the outgoing parameter maps are the inductive `Value`, Go maps
are association lists with replace-on-insert (`mapSet`), and the external
collaborators (the JSON and base64 codecs, `http.NewRequest`, and the HTTP
transport) are explicit: the codecs are executable Lean functions modelled
from the spec (standard base64 alphabet with padding; JSON objects of
strings, integers and booleans), and the per-call outcomes of
`http.NewRequest` and `Client.Do` are supplied by a `World` record, so that
`send` is a pure function of the configuration, the world and its arguments.

Time is modelled at second granularity: a `time.Time` pointer is a
`TimeRef` (`sentinel` is pointer-identity with the package-level
`IgnoreTime`), `Unix` projects the epoch seconds, and `time.Now()` is an
explicit `now : Int` argument.
-/

namespace MixpanelSpec

abbrev Str := List Char

/-- JSON-like values used in the parameter maps the client builds:
strings, integers, booleans and nested objects. -/
inductive Value where
  | vStr  : Str → Value
  | vInt  : Int → Value
  | vBool : Bool → Value
  | vObj  : List (Str × Value) → Value

abbrev Fields := List (Str × Value)

/-- Modelled from the spec: JSON string escaping of the assumed-correct
external JSON codec; the quote and the backslash are escaped. -/
def escape : Str → Str
  | [] => []
  | c :: r => (if c = '"' ∨ c = '\\' then ['\\', c] else [c]) ++ escape r

def digitChar (d : Nat) : Char := Char.ofNat (48 + d)

/-- Little-endian base-10 digits with explicit fuel (so that it computes by
kernel reduction); equals `Nat.digits 10` when the fuel is sufficient. -/
def natDigsAux : Nat → Nat → List Nat
  | 0, _ => []
  | _+1, 0 => []
  | f+1, m+1 => ((m+1) % 10) :: natDigsAux f ((m+1) / 10)

def natChars (m : Nat) : Str :=
  if m = 0 then ['0'] else (natDigsAux m m).reverse.map digitChar

def intChars (n : Int) : Str :=
  if n < 0 then '-' :: natChars (-n).toNat else natChars n.toNat

mutual
/-- Modelled from the spec: serialization of a parameter map by the
assumed-correct external JSON codec (`json.Marshal` is not part of the
repository). Deterministic, canonical output. -/
def encV : Value → Str
  | .vStr s => '"' :: escape s ++ ['"']
  | .vInt n => intChars n
  | .vBool b => if b then ['t','r','u','e'] else ['f','a','l','s','e']
  | .vObj fs => '\x7b' :: encFields fs ++ ['\x7d']

def encFields : Fields → Str
  | [] => []
  | (k, v) :: t =>
      ('"' :: escape k ++ ['"', ':']) ++ encV v ++
        (match t with | [] => [] | _ :: _ => ',' :: encFields t)
end

def jsonEncode : Value → Str := encV

def parseStrBody : Str → Option (Str × Str)
  | [] => none
  | c :: r =>
    if c = '\\' then
      match r with
      | [] => none
      | c2 :: r2 => Option.map (fun p => (c2 :: p.1, p.2)) (parseStrBody r2)
    else if c = '"' then some ([], r)
    else Option.map (fun p => (c :: p.1, p.2)) (parseStrBody r)

def spanD : Str → Str × Str
  | [] => ([], [])
  | c :: r =>
    if c.isDigit then ((spanD r).1.cons c, (spanD r).2) else ([], c :: r)

def digitsToNat (ds : Str) : Nat :=
  ds.foldl (fun a c => a * 10 + (c.toNat - 48)) 0

def parseNat (s : Str) : Option (Nat × Str) :=
  match spanD s with
  | ([], _) => none
  | (ds, r) => some (digitsToNat ds, r)

/-- Head of the remaining input is not a digit (so that a greedy number
read stops exactly at the encoded digits). -/
def headOk : Str → Prop
  | [] => True
  | c :: _ => c.isDigit = false

mutual
/-- Modelled from the spec: the decoding direction of the assumed-correct
external JSON codec, a fuelled recursive-descent reader over the value
grammar produced by `encV`. -/
def parseValue : Nat → Str → Option (Value × Str)
  | 0, _ => none
  | _+1, [] => none
  | f+1, c :: r =>
    if c = '"' then Option.map (fun p => (Value.vStr p.1, p.2)) (parseStrBody r)
    else if c = '\x7b' then
      match r with
      | [] => none
      | c2 :: r2 =>
        if c2 = '\x7d' then some (Value.vObj [], r2)
        else Option.map (fun p => (Value.vObj p.1, p.2)) (parseFields f r)
    else if c = 't' then
      match r with
      | 'r' :: 'u' :: 'e' :: r' => some (Value.vBool true, r')
      | _ => none
    else if c = 'f' then
      match r with
      | 'a' :: 'l' :: 's' :: 'e' :: r' => some (Value.vBool false, r')
      | _ => none
    else if c = '-' then Option.map (fun p => (Value.vInt (-(p.1 : Int)), p.2)) (parseNat r)
    else if c.isDigit then Option.map (fun p => (Value.vInt (p.1 : Int), p.2)) (parseNat (c :: r))
    else none

def parseFields : Nat → Str → Option (Fields × Str)
  | 0, _ => none
  | _+1, [] => none
  | f+1, c :: r =>
    if c = '"' then
      match parseStrBody r with
      | none => none
      | some (k, r1) =>
        match r1 with
        | [] => none
        | c2 :: r2 =>
          if c2 = ':' then
            match parseValue f r2 with
            | none => none
            | some (v, r3) =>
              match r3 with
              | [] => none
              | c3 :: r4 =>
                if c3 = ',' then Option.map (fun p => ((k, v) :: p.1, p.2)) (parseFields f r4)
                else if c3 = '\x7d' then some ([(k, v)], r4)
                else none
          else none
    else none
end

def jsonDecode (s : Str) : Option Value :=
  match parseValue (s.length + 1) s with
  | some (v, []) => some v
  | _ => none

mutual
/-- Fuel required by `parseValue` to read back an encoded value. -/
def sizeV : Value → Nat
  | .vStr _ => 1
  | .vInt _ => 1
  | .vBool _ => 1
  | .vObj fs => 1 + sizeFields fs

def sizeFields : Fields → Nat
  | [] => 1
  | (_, v) :: t => 1 + sizeV v + sizeFields t
end

/-! ## Base64 (standard alphabet, with padding) -/

def b64alpha : Str :=
  "ABCDEFGHIJKLMNOPQRSTUVWXYZabcdefghijklmnopqrstuvwxyz0123456789+/".toList

def enc6 (n : Nat) : Char := b64alpha.getD n 'A'

/-- Modelled from the spec: `base64.StdEncoding.EncodeToString` (standard
alphabet, padded), one 3-byte group at a time. -/
def b64encode : List Nat → Str
  | [] => []
  | [b1] => [enc6 (b1 / 4), enc6 (b1 % 4 * 16), '=', '=']
  | [b1, b2] => [enc6 (b1 / 4), enc6 (b1 % 4 * 16 + b2 / 16), enc6 (b2 % 16 * 4), '=']
  | b1 :: b2 :: b3 :: t =>
      enc6 (b1 / 4) :: enc6 (b1 % 4 * 16 + b2 / 16) :: enc6 (b2 % 16 * 4 + b3 / 64) ::
        enc6 (b3 % 64) :: b64encode t

def findIn : List Char → Char → Option Nat
  | [], _ => none
  | a :: r, c => if a = c then some 0 else Option.map (· + 1) (findIn r c)

def dec6 (c : Char) : Option Nat := findIn b64alpha c

/-- Modelled from the spec: the decoding direction of the assumed-correct
standard base64 codec, one 4-character group at a time, padding only in the
final group. -/
def b64decode : Str → Option (List Nat)
  | [] => some []
  | c1 :: c2 :: c3 :: c4 :: t =>
    match dec6 c1, dec6 c2 with
    | some v1, some v2 =>
      if c3 = '=' then
        if c4 = '=' ∧ t = [] then some [v1 * 4 + v2 / 16] else none
      else
        match dec6 c3 with
        | some v3 =>
          if c4 = '=' then
            if t = [] then some [v1 * 4 + v2 / 16, v2 % 16 * 16 + v3 / 4] else none
          else
            match dec6 c4 with
            | some v4 =>
                Option.map
                  (fun bs => (v1 * 4 + v2 / 16) :: (v2 % 16 * 16 + v3 / 4) ::
                    (v3 % 4 * 64 + v4) :: bs)
                  (b64decode t)
            | none => none
        | none => none
    | _, _ => none
  | _ => none

/-- Decoding of the `data` query parameter: base64-decode, then JSON-decode
the resulting bytes. -/
def decodeData (d : Str) : Option Value :=
  match b64decode d with
  | some bs => jsonDecode (bs.map Char.ofNat)
  | none => none

/-! ## Go maps as association lists -/

/-- Go map assignment `m[k] = v`: replace the value at an existing key,
otherwise append the binding. -/
def mapSet (fs : Fields) (k : Str) (v : Value) : Fields :=
  match fs with
  | [] => [(k, v)]
  | (k', v') :: t => if k' = k then (k', v) :: t else (k', v') :: mapSet t k v

/-- Go map lookup. -/
def mapGet (fs : Fields) (k : Str) : Option Value :=
  match fs with
  | [] => none
  | (k', v) :: t => if k' = k then some v else mapGet t k

/-- Value of the last binding of `k` in a list of entries, matching the
last-write-wins result of assigning them in order. -/
def lookupLast (fs : Fields) (k : Str) : Option Value :=
  match fs with
  | [] => none
  | (k', v) :: t =>
    match lookupLast t k with
    | some r => some r
    | none => if k' = k then some v else none

/-- Go `for key, value := range props { m[key] = value }`. -/
def mergeProps (seed : Fields) (ps : Fields) : Fields :=
  ps.foldl (fun acc kv => mapSet acc kv.1 kv.2) seed

/-! ## The data model of the client -/

/-- Embedding of a `*time.Time` value: `sentinel` is (pointer identity
with) the package-level `IgnoreTime`, `instant t` any other pointer, to a
time whose Unix epoch is `t` seconds. -/
inductive TimeRef where
  | sentinel : TimeRef
  | instant : Int → TimeRef
deriving DecidableEq

/-- Package-level sentinel `var IgnoreTime *time.Time = &time.Time{}`. -/
def IgnoreTime : TimeRef := TimeRef.sentinel

/-- Unix epoch seconds of the referenced time; the sentinel points at the
zero `time.Time`, whose epoch is -62135596800. -/
def TimeRef.Unix : TimeRef → Int
  | .sentinel => -62135596800
  | .instant t => t

/-- The `mixpanel` struct (the HTTP client handle lives in `World`). -/
structure mixpanel where
  Token : Str
  ApiKey : Str
  ApiSecret : Str
  ApiURL : Str

/-- The `Event` struct of a `Track` call. -/
structure Event where
  IP : Str
  Timestamp : Option TimeRef
  Properties : Fields

/-- The `Update` struct of an `Update` call. -/
structure Update where
  IP : Str
  Timestamp : Option TimeRef
  Operation : Str
  Properties : Fields

/-- The `MixpanelError` struct. -/
structure MixpanelError where
  URL : Str
  Message : Str
  HttpStatus : Nat
  Code : Int

/-- An error value returned by `send`: either a plain error passed through
from `json.Marshal`, or a `*MixpanelError`. -/
inductive GoError where
  | plain : Str → GoError
  | mixpanel : MixpanelError → GoError

/-- Result of one `send` call: `ok` is a nil error, `fail` a non-nil error,
`nilPanic` the run-time fault of calling `SetBasicAuth` on the nil request
returned by a failed `http.NewRequest`. -/
inductive SendOutcome where
  | ok : SendOutcome
  | fail : GoError → SendOutcome
  | nilPanic : SendOutcome

/-- Outcome of `m.Client.Do`: transport failure, or a response with an HTTP
status code and the outcome of reading its body. -/
inductive TransportResult where
  | fail : Str → TransportResult
  | resp : Nat → Except Str Str → TransportResult

/-- Per-call outcomes of the external collaborators of `send`:
`marshal` is `json.Marshal` on the parameter map, `newReq` is
`http.NewRequest` on the composed URL (`none` = it returned an error and a
nil request), `transport` is `Client.Do` keyed by the request URL. -/
structure World where
  marshal : Value → Except Str Str
  newReq : Str → Option Unit
  transport : Str → TransportResult

/-- The assumed-correct marshal outcome: serialization of a `Value`
parameter map always succeeds and yields its JSON text. -/
def goodMarshal : Value → Except Str Str := fun v => Except.ok (jsonEncode v)

/-- The `to64` method: bytes of the JSON text (one byte per character,
ASCII range) to padded standard base64. -/
def to64 (data : Str) : Str := b64encode (data.map Char.toNat)

/-- Request-URL composition of `send`, lines 163-170 of the source:
`ApiURL + "/" + eventType + "?data=" + to64(data)`, then `&ip=1` when
auto-geolocation was requested, then `&verbose=1` unconditionally. -/
def sendUrl (m : mixpanel) (eventType : Str) (data : Str) (autoGeolocate : Bool) : Str :=
  m.ApiURL ++ "/".toList ++ eventType ++ "?data=".toList ++ to64 data
    ++ (if autoGeolocate then "&ip=1".toList else [])
    ++ "&verbose=1".toList

/-- The query-string part of the composed request URL (everything after the
`?`). -/
def sendQuery (data : Str) (autoGeolocate : Bool) : Str :=
  "data=".toList ++ to64 data
    ++ (if autoGeolocate then "&ip=1".toList else [])
    ++ "&verbose=1".toList

/-- Message text standing for `err.Error()` of a failed `json.Unmarshal`
(the external codec's wording is not part of the repository). -/
def unmarshalFailText : Str := "invalid response body".toList

/-- The response interpretation of `send`, lines 194-203: a
`MixpanelError` seeded with the URL and HTTP status, then, for a non-empty
body, `json.Unmarshal` fills `Message` from the `error` field and `Code`
from the `status` field; an undecodable body overwrites `Message` with the
decode failure's text. -/
def interpretBody (reqUrl : Str) (status : Nat) (body : Str) : MixpanelError :=
  let base : MixpanelError := ⟨reqUrl, [], status, 0⟩
  if body = [] then base
  else
    match jsonDecode body with
    | some (Value.vObj fs) =>
        { base with
          Message := (match lookupLast fs "error".toList with
                      | some (Value.vStr s) => s
                      | _ => base.Message)
          Code := (match lookupLast fs "status".toList with
                   | some (Value.vInt n) => n
                   | _ => base.Code) }
    | _ => { base with Message := unmarshalFailText }

/-- Status code decoded from a response body (`0` for an empty body, a body
that is not a JSON object, or an object without an integer `status`). -/
def decodedStatus (body : Str) : Int :=
  match jsonDecode body with
  | some (Value.vObj fs) =>
      match lookupLast fs "status".toList with
      | some (Value.vInt n) => n
      | _ => 0
  | _ => 0

/-- Message decoded from a response body: the `error` field of a decoded
object, the failure text for a non-empty undecodable body, `[]` otherwise. -/
def decodedMessage (body : Str) : Str :=
  if body = [] then []
  else
    match jsonDecode body with
    | some (Value.vObj fs) =>
        match lookupLast fs "error".toList with
        | some (Value.vStr s) => s
        | _ => []
    | _ => unmarshalFailText

/-- The shared `send` routine. Embedding of its effects: the result pairs
the returned error (as a `SendOutcome`) with the list of HTTP requests
issued during the call (the URLs passed to `Client.Do`). -/
def send (m : mixpanel) (w : World) (eventType : Str) (params : Value)
    (autoGeolocate : Bool) : SendOutcome × List Str :=
  match w.marshal params with
  | .error e => (.fail (.plain e), [])
  | .ok data =>
    let reqUrl := sendUrl m eventType data autoGeolocate
    match w.newReq reqUrl with
    | none => (.nilPanic, [])
    | some _ =>
      match w.transport reqUrl with
      | .fail msg => (.fail (.mixpanel ⟨reqUrl, msg, 0, 0⟩), [reqUrl])
      | .resp status bodyRead =>
        match bodyRead with
        | .error msg => (.fail (.mixpanel ⟨reqUrl, msg, 0, 0⟩), [reqUrl])
        | .ok body =>
          let serverErr := interpretBody reqUrl status body
          if serverErr.Code ≠ 1 then (.fail (.mixpanel serverErr), [reqUrl])
          else (.ok, [reqUrl])

/-! ## The three operations -/

/-- Property map built by `Track`, lines 98-116. -/
def trackProps (m : mixpanel) (distinctId : Str) (e : Event) : Fields :=
  let props : Fields :=
    [("token".toList, Value.vStr m.Token), ("distinct_id".toList, Value.vStr distinctId)]
  let props := if e.IP = [] then props else mapSet props "ip".toList (Value.vStr e.IP)
  let props :=
    match e.Timestamp with
    | some tr => mapSet props "time".toList (Value.vInt tr.Unix)
    | none => props
  mergeProps props e.Properties

/-- Endpoint-name selection of `Track`, lines 95-112: `import` when the
timestamp is present and before `now` minus 5 days (432000 seconds),
otherwise `track`. -/
def trackEventType (now : Int) (e : Event) : Str :=
  match e.Timestamp with
  | some tr => if tr.Unix < now - 432000 then "import".toList else "track".toList
  | none => "track".toList

/-- Parameter map of a `Track` call, lines 118-121. -/
def trackParams (m : mixpanel) (distinctId eventName : Str) (e : Event) : Value :=
  Value.vObj [("event".toList, Value.vStr eventName),
              ("properties".toList, Value.vObj (trackProps m distinctId e))]

/-- The `Track` method; `now` is the value of `time.Now()`. -/
def mixpanel.Track (m : mixpanel) (w : World) (now : Int)
    (distinctId eventName : Str) (e : Event) : SendOutcome × List Str :=
  send m w (trackEventType now e) (trackParams m distinctId eventName e) e.IP.isEmpty

/-- Parameter map built by `Update`, lines 131-145. -/
def updateParams (m : mixpanel) (distinctId : Str) (u : Update) : Fields :=
  let params : Fields :=
    [("$token".toList, Value.vStr m.Token), ("$distinct_id".toList, Value.vStr distinctId)]
  let params := if u.IP = [] then params else mapSet params "$ip".toList (Value.vStr u.IP)
  let params :=
    if u.Timestamp = some IgnoreTime then
      mapSet params "$ignore_time".toList (Value.vBool true)
    else
      match u.Timestamp with
      | some tr => mapSet params "$time".toList (Value.vInt tr.Unix)
      | none => params
  mapSet params u.Operation (Value.vObj u.Properties)

/-- The `Update` method. -/
def mixpanel.UpdateUser (m : mixpanel) (w : World) (distinctId : Str)
    (u : Update) : SendOutcome × List Str :=
  send m w "engage".toList (Value.vObj (updateParams m distinctId u)) u.IP.isEmpty

/-- Parameter map built by `Alias`, lines 78-87. -/
def aliasParams (m : mixpanel) (distinctId newId : Str) : Value :=
  Value.vObj [("event".toList, Value.vStr "$create_alias".toList),
              ("properties".toList,
                Value.vObj [("token".toList, Value.vStr m.Token),
                            ("distinct_id".toList, Value.vStr distinctId),
                            ("alias".toList, Value.vStr newId)])]

/-- The `Alias` method: always endpoint `track`, never auto-geolocation. -/
def mixpanel.Alias (m : mixpanel) (w : World) (distinctId newId : Str) :
    SendOutcome × List Str :=
  send m w "track".toList (aliasParams m distinctId newId) false

/-- World whose collaborators all behave: the assumed-correct marshal, a
request constructor that succeeds, and a transport returning a fixed
response. -/
def constWorld (r : TransportResult) : World :=
  ⟨goodMarshal, fun _ => some (), fun _ => r⟩

/-- World in which `json.Marshal` fails with the given message. -/
def failMarshalWorld (e : Str) : World :=
  ⟨fun _ => Except.error e, fun _ => some (), fun _ => TransportResult.fail []⟩

/-- World in which `http.NewRequest` fails (returns an error and a nil
request). -/
def noReqWorld : World :=
  ⟨goodMarshal, fun _ => none, fun _ => TransportResult.fail []⟩

/-- Components of a query string: the pieces between `&` separators. -/
def splitAmp : Str → List Str
  | [] => [[]]
  | c :: r =>
    match splitAmp r with
    | [] => if c = '&' then [[], []] else [[c]]
    | h :: t => if c = '&' then [] :: h :: t else (c :: h) :: t

/-! ## Basic facts about digits and characters -/

theorem ne_of_isDigit {c d : Char} (h : c.isDigit = true) (hd : d.isDigit = false) :
    c ≠ d := by
  intro he
  rw [he, hd] at h
  exact Bool.noConfusion h

theorem natDigsAux_eq (f m : Nat) (h : m ≤ f) : natDigsAux f m = Nat.digits 10 m := by
  induction f generalizing m with
  | zero =>
    interval_cases m
    simp [natDigsAux]
  | succ f ih =>
    match m with
    | 0 => simp [natDigsAux]
    | m+1 =>
      have hd : (m+1) / 10 < m + 1 := Nat.div_lt_self (Nat.succ_pos m) (by norm_num)
      rw [natDigsAux, ih ((m+1)/10) (by omega),
        Nat.digits_def' (b := 10) (by norm_num) (Nat.succ_pos m)]

theorem digitChar_isDigit {d : Nat} (h : d < 10) : (digitChar d).isDigit = true := by
  interval_cases d <;> decide

theorem digitChar_toNat {d : Nat} (h : d < 10) : (digitChar d).toNat = 48 + d := by
  interval_cases d <;> decide

theorem natChars_ne_nil (m : Nat) : natChars m ≠ [] := by
  unfold natChars
  by_cases hm : m = 0
  · simp [hm]
  · simp only [hm, if_false, natDigsAux_eq m m le_rfl]
    simp [Nat.digits_ne_nil_iff_ne_zero, hm]

theorem natChars_digits (m : Nat) : ∀ c ∈ natChars m, c.isDigit = true := by
  intro c hc
  unfold natChars at hc
  by_cases hm : m = 0
  · simp [hm] at hc
    simp [hc]
  · simp only [hm, if_false, natDigsAux_eq m m le_rfl, List.mem_map, List.mem_reverse] at hc
    obtain ⟨d, hd, rfl⟩ := hc
    exact digitChar_isDigit (Nat.digits_lt_base (by norm_num) hd)

/-! ## Roundtrip of the string-body reader -/

theorem parseStrBody_escape (s rest : Str) :
    parseStrBody (escape s ++ '"' :: rest) = some (s, rest) := by
  induction s with
  | nil =>
    show parseStrBody ('"' :: rest) = some ([], rest)
    rw [parseStrBody.eq_def]
    simp
  | cons c r ih =>
    by_cases hc : c = '"' ∨ c = '\\'
    · simp only [escape, hc, if_true, List.cons_append, List.nil_append, List.append_assoc]
      rw [parseStrBody.eq_def]
      simp [ih]
    · push_neg at hc
      simp only [escape, hc, List.cons_append, List.nil_append, List.append_assoc]
      rw [if_neg (by simp [hc.1, hc.2])]
      simp only [List.cons_append, List.nil_append]
      rw [parseStrBody.eq_def]
      simp [if_neg hc.2, if_neg hc.1, ih]

/-! ## Roundtrip of the number reader -/

theorem spanD_all (ds rest : Str) (hds : ∀ c ∈ ds, c.isDigit = true) (hr : headOk rest) :
    spanD (ds ++ rest) = (ds, rest) := by
  induction ds with
  | nil =>
    match rest with
    | [] => rfl
    | c :: r =>
      simp only [headOk] at hr
      simp [spanD, hr]
  | cons c t ih =>
    have hc : c.isDigit = true := hds c (by simp)
    have ht := ih (fun x hx => hds x (by simp [hx]))
    simp [spanD, hc, ht]

theorem foldl_digitChars (L : List Nat) (a : Nat) (h : ∀ d ∈ L, d < 10) :
    ((L.reverse.map digitChar).foldl (fun x c => x * 10 + (c.toNat - 48)) a)
      = a * 10 ^ L.length + Nat.ofDigits 10 L := by
  induction L generalizing a with
  | nil => simp
  | cons x t ih =>
    have hx : x < 10 := h x (by simp)
    have ht : ∀ d ∈ t, d < 10 := fun d hd => h d (by simp [hd])
    rw [List.reverse_cons, List.map_append, List.foldl_append]
    simp only [List.map_cons, List.map_nil, List.foldl_cons, List.foldl_nil]
    rw [ih a ht, Nat.ofDigits_cons, digitChar_toNat hx, List.length_cons]
    have hxx : 48 + x - 48 = x := by omega
    rw [hxx]
    ring

theorem digitsToNat_natChars (m : Nat) : digitsToNat (natChars m) = m := by
  unfold natChars digitsToNat
  by_cases hm : m = 0
  · simp [hm]
  · simp only [hm, if_false, natDigsAux_eq m m le_rfl]
    rw [foldl_digitChars _ 0 (fun d hd => Nat.digits_lt_base (by norm_num) hd)]
    simp [Nat.ofDigits_digits]

theorem parseNat_natChars (m : Nat) (rest : Str) (hr : headOk rest) :
    parseNat (natChars m ++ rest) = some (m, rest) := by
  have hs := spanD_all (natChars m) rest (natChars_digits m) hr
  unfold parseNat
  rw [hs]
  match hnm : natChars m, natChars_ne_nil m with
  | c :: t, _ =>
    simp only []
    rw [← hnm, digitsToNat_natChars]

/-! ## Roundtrip of the JSON codec -/

theorem sizeV_pos (v : Value) : 1 ≤ sizeV v := by
  cases v <;> simp [sizeV]

theorem sizeFields_pos (fs : Fields) : 1 ≤ sizeFields fs := by
  cases fs with
  | nil => simp [sizeFields]
  | cons kv t =>
    obtain ⟨a, b⟩ := kv
    simp only [sizeFields]
    omega

theorem parse_encV : ∀ f : Nat,
    (∀ v rest, sizeV v ≤ f → headOk rest →
       parseValue f (encV v ++ rest) = some (v, rest)) ∧
    (∀ k v t rest, sizeFields ((k, v) :: t) ≤ f →
       parseFields f (encFields ((k, v) :: t) ++ '\x7d' :: rest) = some ((k, v) :: t, rest)) := by
  intro f
  induction f with
  | zero =>
    constructor
    · intro v rest hs _
      have := sizeV_pos v
      omega
    · intro k v t rest hs
      have : 1 ≤ sizeFields ((k, v) :: t) := sizeFields_pos _
      omega
  | succ f ih =>
    constructor
    · intro v rest hs hr
      cases v with
      | vStr s =>
        show parseValue (f + 1) (('"' :: escape s ++ ['"']) ++ rest) = _
        simp only [List.cons_append, List.append_assoc, List.singleton_append]
        rw [parseValue.eq_def]
        simp [parseStrBody_escape]
      | vBool b =>
        cases b
        · rw [show encV (Value.vBool false) = ['f','a','l','s','e'] from rfl]
          rw [parseValue.eq_def]
          simp
        · rw [show encV (Value.vBool true) = ['t','r','u','e'] from rfl]
          rw [parseValue.eq_def]
          simp
      | vInt n =>
        show parseValue (f + 1) (intChars n ++ rest) = _
        by_cases hn : n < 0
        · simp only [intChars, hn, if_true, List.cons_append]
          rw [parseValue.eq_def]
          simp only []
          rw [if_true, parseNat_natChars _ rest hr]
          show some (Value.vInt (-(((-n).toNat : Int))), rest) = some (Value.vInt n, rest)
          rw [show (-(((-n).toNat : Int))) = n by omega]
        · simp only [intChars, hn, if_false]
          obtain ⟨c0, tl, hnc⟩ : ∃ c0 tl, natChars n.toNat = c0 :: tl := by
            match hx : natChars n.toNat, natChars_ne_nil n.toNat with
            | c :: t, _ => exact ⟨c, t, rfl⟩
          have hd : c0.isDigit = true := natChars_digits _ c0 (by rw [hnc]; simp)
          rw [hnc, List.cons_append, parseValue.eq_def]
          simp only []
          rw [if_neg (ne_of_isDigit hd (by decide)), if_neg (ne_of_isDigit hd (by decide)),
            if_neg (ne_of_isDigit hd (by decide)), if_neg (ne_of_isDigit hd (by decide)),
            if_neg (ne_of_isDigit hd (by decide)), if_pos hd]
          rw [show c0 :: (tl ++ rest) = (c0 :: tl) ++ rest from rfl, ← hnc,
            parseNat_natChars _ rest hr]
          show some (Value.vInt ((n.toNat : Int)), rest) = some (Value.vInt n, rest)
          rw [show ((n.toNat : Int)) = n by omega]
      | vObj fs =>
        cases fs with
        | nil =>
          rw [show encV (Value.vObj []) ++ rest = '\x7b' :: '\x7d' :: rest from rfl]
          rw [parseValue.eq_def]
          simp
        | cons kv t =>
          obtain ⟨k, v⟩ := kv
          have hfuel : sizeFields ((k, v) :: t) ≤ f := by
            have hsz : sizeV (Value.vObj ((k, v) :: t)) = 1 + sizeFields ((k, v) :: t) := rfl
            omega
          have hpf := ih.2 k v t rest hfuel
          obtain ⟨rr, hrr⟩ : ∃ rr, encFields ((k, v) :: t) = '"' :: rr := by
            cases t
            · exact ⟨_, rfl⟩
            · exact ⟨_, rfl⟩
          show parseValue (f + 1) (('\x7b' :: encFields ((k, v) :: t) ++ ['\x7d']) ++ rest) = _
          simp only [List.cons_append, List.append_assoc, List.singleton_append]
          rw [parseValue.eq_def]
          rw [hrr] at hpf ⊢
          simp only [List.cons_append] at hpf ⊢
          simp [hpf]
    · intro k v t rest hs
      have hsv : sizeV v ≤ f := by
        simp only [sizeFields] at hs
        have := sizeFields_pos t
        omega
      have hst : sizeFields t ≤ f := by
        simp only [sizeFields] at hs
        have := sizeV_pos v
        omega
      cases t with
      | nil =>
        have h1 := ih.1 v ('\x7d' :: rest) hsv (by show ('\x7d').isDigit = false; decide)
        rw [encFields.eq_def]
        simp only [List.cons_append, List.append_assoc, List.append_nil, List.nil_append]
        rw [parseFields.eq_def]
        simp [List.append_assoc, parseStrBody_escape, h1]
      | cons kv2 t2 =>
        obtain ⟨k2, v2⟩ := kv2
        have h1 := ih.1 v (',' :: (encFields ((k2, v2) :: t2) ++ '\x7d' :: rest)) hsv
          (by show (',').isDigit = false; decide)
        have h2 := ih.2 k2 v2 t2 rest hst
        rw [encFields.eq_def]
        simp only [List.cons_append, List.append_assoc, List.nil_append]
        rw [parseFields.eq_def]
        simp [List.append_assoc, parseStrBody_escape, h1, h2]

theorem size_le : ∀ n : Nat,
    (∀ v, sizeV v ≤ n → sizeV v ≤ (encV v).length) ∧
    (∀ fs, sizeFields fs ≤ n → sizeFields fs ≤ (encFields fs).length + 1) := by
  intro n
  induction n with
  | zero =>
    constructor
    · intro v hs
      have := sizeV_pos v
      omega
    · intro fs hs
      have := sizeFields_pos fs
      omega
  | succ n ih =>
    constructor
    · intro v hs
      cases v with
      | vStr s =>
        rw [show sizeV (Value.vStr s) = 1 from rfl]
        rw [show encV (Value.vStr s) = '"' :: escape s ++ ['"'] from rfl]
        simp
      | vInt m =>
        rw [show sizeV (Value.vInt m) = 1 from rfl]
        have h1 : intChars m ≠ [] := by
          unfold intChars
          by_cases hm : m < 0
          · simp [hm]
          · simp only [hm, if_false]
            exact natChars_ne_nil _
        have := List.length_pos.mpr (show encV (Value.vInt m) ≠ [] from h1)
        omega
      | vBool b =>
        cases b
        · rw [show sizeV (Value.vBool false) = 1 from rfl,
            show encV (Value.vBool false) = ['f','a','l','s','e'] from rfl]
          simp
        · rw [show sizeV (Value.vBool true) = 1 from rfl,
            show encV (Value.vBool true) = ['t','r','u','e'] from rfl]
          simp
      | vObj fs =>
        have h1 : sizeV (Value.vObj fs) = 1 + sizeFields fs := rfl
        have h2 : encV (Value.vObj fs) = '\x7b' :: encFields fs ++ ['\x7d'] := by
          cases fs
          · rfl
          · rfl
        have h3 : sizeFields fs ≤ n := by
          have := sizeFields_pos fs
          omega
        have h4 := ih.2 fs h3
        rw [h1, h2]
        simp only [List.length_cons, List.length_append, List.length_singleton]
        omega
    · intro fs hs
      cases fs with
      | nil =>
        rw [show sizeFields ([] : Fields) = 1 from rfl]
        omega
      | cons kv t =>
        obtain ⟨k, v⟩ := kv
        have h1 : sizeFields ((k, v) :: t) = 1 + sizeV v + sizeFields t := rfl
        have hsv : sizeV v ≤ n := by
          have := sizeFields_pos t
          rw [h1] at hs
          omega
        have hst : sizeFields t ≤ n := by
          have := sizeV_pos v
          rw [h1] at hs
          omega
        have h4 := ih.1 v hsv
        have h5 := ih.2 t hst
        have h2 : (encFields ((k, v) :: t)).length =
            (escape k).length + 3 + (encV v).length +
              (match t with | [] => ([] : Str) | _ :: _ => ',' :: encFields t).length := by
          rw [encFields.eq_def]
          cases t <;> simp <;> omega
        rw [h1, h2]
        cases t with
        | nil =>
          simp only [List.length_nil]
          rw [show sizeFields ([] : Fields) = 1 from rfl]
          omega
        | cons kv2 t2 =>
          simp only [List.length_cons]
          omega

theorem jsonDecode_encV (v : Value) : jsonDecode (encV v) = some v := by
  have hb := (size_le (sizeV v)).1 v le_rfl
  have h := (parse_encV ((encV v).length + 1)).1 v [] (by omega) trivial
  rw [List.append_nil] at h
  rw [jsonDecode, h]

/-! ## Base64 facts -/

theorem dec6_enc6 : ∀ v : Nat, v < 64 → dec6 (enc6 v) = some v := by decide

theorem enc6_ne_pad : ∀ v : Nat, v < 64 → enc6 v ≠ '=' := by decide

theorem b64_roundtrip_aux : ∀ n (bs : List Nat), bs.length ≤ n → (∀ b ∈ bs, b < 256) →
    b64decode (b64encode bs) = some bs := by
  intro n
  induction n with
  | zero =>
    intro bs hlen _
    match bs, hlen with
    | [], _ => rfl
  | succ n ih =>
    intro bs hlen hlt
    match bs with
    | [] => rfl
    | [b1] =>
      have h1 : b1 < 256 := hlt b1 (by simp)
      rw [show b64encode [b1] = [enc6 (b1 / 4), enc6 (b1 % 4 * 16), '=', '='] from rfl,
        b64decode, dec6_enc6 (b1 / 4) (by omega), dec6_enc6 (b1 % 4 * 16) (by omega)]
      simp
      omega
    | [b1, b2] =>
      have h1 : b1 < 256 := hlt b1 (by simp)
      have h2 : b2 < 256 := hlt b2 (by simp)
      rw [show b64encode [b1, b2] =
          [enc6 (b1 / 4), enc6 (b1 % 4 * 16 + b2 / 16), enc6 (b2 % 16 * 4), '='] from rfl,
        b64decode, dec6_enc6 (b1 / 4) (by omega),
        dec6_enc6 (b1 % 4 * 16 + b2 / 16) (by omega)]
      simp only []
      rw [if_neg (enc6_ne_pad (b2 % 16 * 4) (by omega)),
        dec6_enc6 (b2 % 16 * 4) (by omega)]
      simp
      omega
    | b1 :: b2 :: b3 :: t =>
      have h1 : b1 < 256 := hlt b1 (by simp)
      have h2 : b2 < 256 := hlt b2 (by simp)
      have h3 : b3 < 256 := hlt b3 (by simp)
      have ht : ∀ b ∈ t, b < 256 := fun b hb => hlt b (by simp [hb])
      have hlen' : t.length ≤ n := by
        simp only [List.length_cons] at hlen
        omega
      rw [show b64encode (b1 :: b2 :: b3 :: t) =
          enc6 (b1 / 4) :: enc6 (b1 % 4 * 16 + b2 / 16) :: enc6 (b2 % 16 * 4 + b3 / 64) ::
            enc6 (b3 % 64) :: b64encode t from rfl,
        b64decode, dec6_enc6 (b1 / 4) (by omega),
        dec6_enc6 (b1 % 4 * 16 + b2 / 16) (by omega)]
      simp only []
      rw [if_neg (enc6_ne_pad (b2 % 16 * 4 + b3 / 64) (by omega)),
        dec6_enc6 (b2 % 16 * 4 + b3 / 64) (by omega)]
      simp only []
      rw [if_neg (enc6_ne_pad (b3 % 64) (by omega)),
        dec6_enc6 (b3 % 64) (by omega)]
      simp only []
      rw [ih t hlen' ht]
      simp
      omega

theorem b64_roundtrip (bs : List Nat) (h : ∀ b ∈ bs, b < 256) :
    b64decode (b64encode bs) = some bs :=
  b64_roundtrip_aux bs.length bs le_rfl h

/-! ## Base64 output characters and length -/

theorem getD_mem_or (l : List Char) (n : Nat) (d : Char) :
    l.getD n d ∈ l ∨ l.getD n d = d := by
  induction l generalizing n with
  | nil => simp [List.getD]
  | cons a t ih =>
    match n with
    | 0 => simp [List.getD]
    | n+1 =>
      rcases ih n with h | h
      · exact Or.inl (by simp [List.getD] at h ⊢; simp [h])
      · simp [List.getD] at h ⊢
        simp [h]

theorem enc6_in (n : Nat) : enc6 n ∈ b64alpha := by
  rcases getD_mem_or b64alpha n 'A' with h | h
  · exact h
  · rw [enc6, h]
    decide

theorem b64encode_chars : ∀ n (bs : List Nat) (c : Char), bs.length ≤ n →
    c ∈ b64encode bs → c ∈ b64alpha ∨ c = '=' := by
  intro n
  induction n with
  | zero =>
    intro bs c hlen hc
    match bs, hlen with
    | [], _ => simp [b64encode] at hc
  | succ n ih =>
    intro bs c hlen hc
    match bs with
    | [] => simp [b64encode] at hc
    | [b1] =>
      rw [show b64encode [b1] = [enc6 (b1 / 4), enc6 (b1 % 4 * 16), '=', '='] from rfl] at hc
      simp only [List.mem_cons, List.not_mem_nil, or_false] at hc
      rcases hc with rfl | rfl | rfl | rfl
      · exact Or.inl (enc6_in _)
      · exact Or.inl (enc6_in _)
      · exact Or.inr rfl
      · exact Or.inr rfl
    | [b1, b2] =>
      rw [show b64encode [b1, b2] =
        [enc6 (b1 / 4), enc6 (b1 % 4 * 16 + b2 / 16), enc6 (b2 % 16 * 4), '='] from rfl] at hc
      simp only [List.mem_cons, List.not_mem_nil, or_false] at hc
      rcases hc with rfl | rfl | rfl | rfl
      · exact Or.inl (enc6_in _)
      · exact Or.inl (enc6_in _)
      · exact Or.inl (enc6_in _)
      · exact Or.inr rfl
    | b1 :: b2 :: b3 :: t =>
      rw [show b64encode (b1 :: b2 :: b3 :: t) =
        enc6 (b1 / 4) :: enc6 (b1 % 4 * 16 + b2 / 16) :: enc6 (b2 % 16 * 4 + b3 / 64) ::
          enc6 (b3 % 64) :: b64encode t from rfl] at hc
      simp only [List.mem_cons] at hc
      rcases hc with rfl | rfl | rfl | rfl | hmem
      · exact Or.inl (enc6_in _)
      · exact Or.inl (enc6_in _)
      · exact Or.inl (enc6_in _)
      · exact Or.inl (enc6_in _)
      · exact ih t c (by simp at hlen; omega) hmem

theorem amp_notin_b64encode (bs : List Nat) : '&' ∉ b64encode bs := by
  intro hc
  rcases b64encode_chars bs.length bs '&' le_rfl hc with h | h
  · revert h
    decide
  · exact absurd h (by decide)

theorem amp_notin_to64 (data : Str) : '&' ∉ to64 data :=
  amp_notin_b64encode _

theorem b64encode_len : ∀ n (bs : List Nat), bs.length ≤ n →
    (b64encode bs).length % 4 = 0 := by
  intro n
  induction n with
  | zero =>
    intro bs hlen
    match bs, hlen with
    | [], _ => rfl
  | succ n ih =>
    intro bs hlen
    match bs with
    | [] => rfl
    | [b1] =>
      rw [show b64encode [b1] = [enc6 (b1 / 4), enc6 (b1 % 4 * 16), '=', '='] from rfl]
      simp
    | [b1, b2] =>
      rw [show b64encode [b1, b2] =
        [enc6 (b1 / 4), enc6 (b1 % 4 * 16 + b2 / 16), enc6 (b2 % 16 * 4), '='] from rfl]
      simp
    | b1 :: b2 :: b3 :: t =>
      have := ih t (by simp at hlen; omega)
      rw [show b64encode (b1 :: b2 :: b3 :: t) =
        enc6 (b1 / 4) :: enc6 (b1 % 4 * 16 + b2 / 16) :: enc6 (b2 % 16 * 4 + b3 / 64) ::
          enc6 (b3 % 64) :: b64encode t from rfl]
      simp only [List.length_cons]
      omega

/-! ## Roundtrip through base64 and JSON -/

theorem decodeData_to64 (v : Value) (h : ∀ c ∈ jsonEncode v, c.toNat < 256) :
    decodeData (to64 (jsonEncode v)) = some v := by
  have hb : ∀ b ∈ (jsonEncode v).map Char.toNat, b < 256 := by
    intro b hb
    simp only [List.mem_map] at hb
    obtain ⟨c, hc, rfl⟩ := hb
    exact h c hc
  rw [decodeData, to64, b64_roundtrip _ hb]
  have hmap : ((jsonEncode v).map Char.toNat).map Char.ofNat = jsonEncode v := by
    rw [List.map_map]
    have hco : Char.ofNat ∘ Char.toNat = id := funext fun c => Char.ofNat_toNat c
    rw [hco, List.map_id]
  simp only []
  rw [hmap]
  exact jsonDecode_encV v

/-! ## Go map lemmas -/

theorem mapGet_mapSet_self (fs : Fields) (k : Str) (v : Value) :
    mapGet (mapSet fs k v) k = some v := by
  induction fs with
  | nil => simp [mapSet, mapGet]
  | cons kv t ih =>
    obtain ⟨k', v'⟩ := kv
    by_cases h : k' = k
    · simp [mapSet, mapGet, h]
    · simp [mapSet, mapGet, h, ih]

theorem mapGet_mapSet_ne (fs : Fields) (k' k : Str) (v : Value) (h : k' ≠ k) :
    mapGet (mapSet fs k' v) k = mapGet fs k := by
  induction fs with
  | nil => simp [mapSet, mapGet, h]
  | cons kv t ih =>
    obtain ⟨k2, v2⟩ := kv
    by_cases h2 : k2 = k'
    · subst h2
      simp [mapSet, mapGet, h, ih]
    · simp only [mapSet, if_neg h2]
      by_cases h3 : k2 = k
      · simp [mapGet, h3]
      · simp [mapGet, h3, ih]

theorem mapGet_mergeProps (seed ps : Fields) (k : Str) :
    mapGet (mergeProps seed ps) k =
      (match lookupLast ps k with
       | some v => some v
       | none => mapGet seed k) := by
  induction ps generalizing seed with
  | nil => simp [mergeProps, lookupLast]
  | cons kv t ih =>
    obtain ⟨k0, v0⟩ := kv
    rw [show mergeProps seed ((k0, v0) :: t) = mergeProps (mapSet seed k0 v0) t from rfl]
    rw [ih (mapSet seed k0 v0)]
    rw [show lookupLast ((k0, v0) :: t) k =
      (match lookupLast t k with
       | some r => some r
       | none => if k0 = k then some v0 else none) from rfl]
    cases hl : lookupLast t k with
    | some r => simp
    | none =>
      simp only []
      by_cases hk : k0 = k
      · subst hk
        simp [mapGet_mapSet_self]
      · simp [hk, mapGet_mapSet_ne seed k0 k v0 hk]

/-! ## Query-string splitting -/

theorem splitAmp_ne_nil (s : Str) : splitAmp s ≠ [] := by
  cases s with
  | nil => simp [splitAmp]
  | cons c r =>
    rw [splitAmp]
    cases splitAmp r with
    | nil =>
      by_cases h : c = '&' <;> simp [h]
    | cons h t =>
      by_cases hc : c = '&' <;> simp [hc]

theorem splitAmp_amp (r : Str) : splitAmp ('&' :: r) = [] :: splitAmp r := by
  rw [splitAmp]
  cases hr : splitAmp r with
  | nil => exact absurd hr (splitAmp_ne_nil r)
  | cons h t => simp

theorem splitAmp_append (xs ys : Str) (h : ∀ c ∈ xs, c ≠ '&') :
    splitAmp (xs ++ ys) = (xs ++ (splitAmp ys).headI) :: (splitAmp ys).tail := by
  induction xs with
  | nil =>
    cases hy : splitAmp ys with
    | nil => exact absurd hy (splitAmp_ne_nil ys)
    | cons a t => simp [hy]
  | cons c xs' ih =>
    have hc : c ≠ '&' := h c (by simp)
    have ih' := ih (fun x hx => h x (by simp [hx]))
    rw [List.cons_append, splitAmp, ih']
    simp [hc]

theorem splitAmp_no_amp (xs : Str) (h : ∀ c ∈ xs, c ≠ '&') : splitAmp xs = [xs] := by
  have := splitAmp_append xs [] h
  simp only [List.append_nil] at this
  rw [this]
  simp [splitAmp]

/-! ## Interpretation of the response body -/

theorem interpretBody_eq (reqUrl : Str) (status : Nat) (body : Str) :
    interpretBody reqUrl status body =
      ⟨reqUrl, decodedMessage body, status, decodedStatus body⟩ := by
  by_cases hb : body = []
  · subst hb
    rfl
  · rw [interpretBody, decodedStatus, decodedMessage, if_neg hb, if_neg hb]
    cases hd : jsonDecode body with
    | none => simp
    | some v => cases v <;> simp

/-! ## Claim theorems -/

/-- C1: for a `send` call whose transport yields a response with a readable
body, the call returns a nil error exactly when the status code decoded
from the body is 1, regardless of the HTTP status code; any other decoded
status (including 0 from an empty or undecodable body) yields a non-nil
`MixpanelError` carrying the request URL, the received HTTP status code,
and the decoded message and status (possibly zero values). -/
theorem send_status_interpretation
    (m : mixpanel) (w : World) (eventType : Str) (params : Value) (auto : Bool)
    (data : Str) (status : Nat) (body : Str)
    (hm : w.marshal params = Except.ok data)
    (hn : w.newReq (sendUrl m eventType data auto) = some ())
    (ht : w.transport (sendUrl m eventType data auto) =
      TransportResult.resp status (Except.ok body)) :
    (decodedStatus body = 1 → (send m w eventType params auto).1 = SendOutcome.ok) ∧
    (decodedStatus body ≠ 1 →
      (send m w eventType params auto).1 =
        SendOutcome.fail (GoError.mixpanel
          ⟨sendUrl m eventType data auto, decodedMessage body, status, decodedStatus body⟩)) := by
  rw [send, hm]
  simp only []
  rw [hn]
  simp only []
  rw [ht]
  simp only []
  rw [interpretBody_eq]
  constructor
  · intro h1
    rw [if_neg (by simp [h1])]
  · intro h1
    rw [if_pos (by simp [h1])]

/-- C7: for a `send` call in which the HTTP transport fails, or the
response body cannot be read, the returned error carries the attempted
request URL and the underlying failure message, with the HTTP status and
decoded code left at zero. -/
theorem send_transport_error
    (m : mixpanel) (w : World) (eventType : Str) (params : Value) (auto : Bool)
    (data : Str)
    (hm : w.marshal params = Except.ok data)
    (hn : w.newReq (sendUrl m eventType data auto) = some ()) :
    (∀ msg, w.transport (sendUrl m eventType data auto) = TransportResult.fail msg →
       (send m w eventType params auto).1 =
         SendOutcome.fail (GoError.mixpanel ⟨sendUrl m eventType data auto, msg, 0, 0⟩)) ∧
    (∀ status msg,
       w.transport (sendUrl m eventType data auto) =
         TransportResult.resp status (Except.error msg) →
       (send m w eventType params auto).1 =
         SendOutcome.fail (GoError.mixpanel ⟨sendUrl m eventType data auto, msg, 0, 0⟩)) := by
  constructor
  · intro msg ht
    rw [send, hm]
    simp only []
    rw [hn]
    simp only []
    rw [ht]
  · intro status msg ht
    rw [send, hm]
    simp only []
    rw [hn]
    simp only []
    rw [ht]

/-- C8: for a `send` call in which serialization of the parameter map
fails, the serialization error is returned directly as a plain error (no
`MixpanelError`, no URL context) and no HTTP request is issued (the
request list of the call is empty, for every world). -/
theorem send_marshal_error
    (m : mixpanel) (w : World) (eventType : Str) (params : Value) (auto : Bool)
    (e : Str) (hm : w.marshal params = Except.error e) :
    send m w eventType params auto = (SendOutcome.fail (GoError.plain e), []) := by
  rw [send, hm]

/-- C10: the error returned by `http.NewRequest` is never checked before
the request is used, so whenever request construction fails (returning a
nil request), `send` faults by calling `SetBasicAuth` on the nil request
instead of returning an error to the caller. -/
theorem send_nil_request_panic
    (m : mixpanel) (w : World) (eventType : Str) (params : Value) (auto : Bool)
    (data : Str)
    (hm : w.marshal params = Except.ok data)
    (hn : w.newReq (sendUrl m eventType data auto) = none) :
    send m w eventType params auto = (SendOutcome.nilPanic, []) := by
  rw [send, hm]
  simp only []
  rw [hn]

/-- Witness for C1: at a concrete world whose response body is
`{"status":1}`, the call returns a nil error even though the HTTP status
is 500. -/
theorem send_status_interpretation_witness :
    decodedStatus ['\x7b', '"', 's', 't', 'a', 't', 'u', 's', '"', ':', '1', '\x7d'] = 1 ∧
    (send ⟨[], [], [], []⟩
      (constWorld (TransportResult.resp 500
        (Except.ok ['\x7b', '"', 's', 't', 'a', 't', 'u', 's', '"', ':', '1', '\x7d'])))
      ['t'] (Value.vObj []) false).1 = SendOutcome.ok := by
  refine ⟨by decide, ?_⟩
  exact (send_status_interpretation ⟨[], [], [], []⟩
    (constWorld (TransportResult.resp 500
      (Except.ok ['\x7b', '"', 's', 't', 'a', 't', 'u', 's', '"', ':', '1', '\x7d'])))
    ['t'] (Value.vObj []) false (jsonEncode (Value.vObj [])) 500
    ['\x7b', '"', 's', 't', 'a', 't', 'u', 's', '"', ':', '1', '\x7d']
    rfl rfl rfl).1 (by decide)

/-- Witness for C7: a failing transport produces the URL-carrying error
with zero HTTP status. -/
theorem send_transport_error_witness :
    (send ⟨[], [], [], []⟩ (constWorld (TransportResult.fail ['x'])) ['t']
      (Value.vObj []) false).1 =
      SendOutcome.fail (GoError.mixpanel
        ⟨sendUrl ⟨[], [], [], []⟩ ['t'] (jsonEncode (Value.vObj [])) false, ['x'], 0, 0⟩) :=
  (send_transport_error ⟨[], [], [], []⟩ (constWorld (TransportResult.fail ['x'])) ['t']
    (Value.vObj []) false (jsonEncode (Value.vObj [])) rfl rfl).1 ['x'] rfl

/-- Witness for C8: a failing marshal yields the plain error and no
request. -/
theorem send_marshal_error_witness :
    send ⟨[], [], [], []⟩ (failMarshalWorld ['b', 'a', 'd']) ['t'] (Value.vObj []) false =
      (SendOutcome.fail (GoError.plain ['b', 'a', 'd']), []) :=
  send_marshal_error ⟨[], [], [], []⟩ (failMarshalWorld ['b', 'a', 'd']) ['t']
    (Value.vObj []) false ['b', 'a', 'd'] rfl

/-- Witness for C10: a failing `http.NewRequest` makes the call fault
rather than return an error. -/
theorem send_nil_request_panic_witness :
    send ⟨[], [], [], []⟩ noReqWorld ['t'] (Value.vObj []) false =
      (SendOutcome.nilPanic, []) :=
  send_nil_request_panic ⟨[], [], [], []⟩ noReqWorld ['t'] (Value.vObj []) false
    (jsonEncode (Value.vObj [])) rfl rfl

/-- C2 counterexample: with `Timestamp = IgnoreTime` and the operation
name `$time`, the final `params[u.Operation] = u.Properties` assignment
adds a `$time` key, so the parameter map does contain `$time`, refuting
the unrestricted three-way-branch claim. -/
theorem updateParams_time_key_counterexample :
    mapGet (updateParams ⟨[], [], [], []⟩ []
        ⟨[], some IgnoreTime, "$time".toList, []⟩) "$time".toList =
      some (Value.vObj []) := by
  rfl

/-- C2 (amended): for every `Update` call whose operation name is neither
`$time` nor `$ignore_time`, the timestamp is handled by a three-way
branch: the `IgnoreTime` sentinel puts `$ignore_time = true` and no
`$time` key in the parameter map; any other non-nil timestamp puts
`$time` = its Unix epoch and no `$ignore_time`; a nil timestamp puts
neither key. -/
theorem updateParams_timestamp_branch (m : mixpanel) (distinctId : Str) (u : Update)
    (h1 : u.Operation ≠ "$time".toList) (h2 : u.Operation ≠ "$ignore_time".toList) :
    (u.Timestamp = some IgnoreTime →
       mapGet (updateParams m distinctId u) "$ignore_time".toList = some (Value.vBool true) ∧
       mapGet (updateParams m distinctId u) "$time".toList = none) ∧
    (∀ t : Int, u.Timestamp = some (TimeRef.instant t) →
       mapGet (updateParams m distinctId u) "$time".toList = some (Value.vInt t) ∧
       mapGet (updateParams m distinctId u) "$ignore_time".toList = none) ∧
    (u.Timestamp = none →
       mapGet (updateParams m distinctId u) "$time".toList = none ∧
       mapGet (updateParams m distinctId u) "$ignore_time".toList = none) := by
  have hbase : ∀ k : Str, k ≠ "$ip".toList → k ≠ "$token".toList → k ≠ "$distinct_id".toList →
      mapGet (if u.IP = [] then
          ([("$token".toList, Value.vStr m.Token),
            ("$distinct_id".toList, Value.vStr distinctId)] : Fields)
        else
          mapSet [("$token".toList, Value.vStr m.Token),
            ("$distinct_id".toList, Value.vStr distinctId)]
            "$ip".toList (Value.vStr u.IP)) k = none := by
    intro k hk1 hk2 hk3
    have hm : mapGet ([("$token".toList, Value.vStr m.Token),
        ("$distinct_id".toList, Value.vStr distinctId)] : Fields) k = none := by
      rw [show mapGet ([("$token".toList, Value.vStr m.Token),
            ("$distinct_id".toList, Value.vStr distinctId)] : Fields) k =
          (if "$token".toList = k then some (Value.vStr m.Token)
           else if "$distinct_id".toList = k then some (Value.vStr distinctId)
           else none) from rfl,
        if_neg (Ne.symm hk2), if_neg (Ne.symm hk3)]
    by_cases h : u.IP = []
    · rw [if_pos h]
      exact hm
    · rw [if_neg h, mapGet_mapSet_ne _ _ _ _ (Ne.symm hk1)]
      exact hm
  refine ⟨?_, ?_, ?_⟩
  · intro hts
    rw [updateParams]
    rw [hts, if_pos rfl]
    constructor
    · rw [mapGet_mapSet_ne _ _ _ _ h2, mapGet_mapSet_self]
    · rw [mapGet_mapSet_ne _ _ _ _ h1,
        mapGet_mapSet_ne _ _ _ _ (by decide : "$ignore_time".toList ≠ "$time".toList)]
      exact hbase _ (by decide) (by decide) (by decide)
  · intro t hts
    rw [updateParams]
    rw [hts, if_neg (by simp [IgnoreTime] : ¬(some (TimeRef.instant t) = some IgnoreTime))]
    simp only []
    constructor
    · rw [mapGet_mapSet_ne _ _ _ _ h1, mapGet_mapSet_self]
      rfl
    · rw [mapGet_mapSet_ne _ _ _ _ h2,
        mapGet_mapSet_ne _ _ _ _ (by decide : "$time".toList ≠ "$ignore_time".toList)]
      exact hbase _ (by decide) (by decide) (by decide)
    
  · intro hts
    rw [updateParams]
    rw [hts, if_neg (by simp [IgnoreTime] : ¬((none : Option TimeRef) = some IgnoreTime))]
    constructor
    · rw [mapGet_mapSet_ne _ _ _ _ h1]
      exact hbase _ (by decide) (by decide) (by decide)
    · rw [mapGet_mapSet_ne _ _ _ _ h2]
      exact hbase _ (by decide) (by decide) (by decide)

/-- Witness for the amended C2: a concrete `$set` update carrying the
sentinel gets `$ignore_time = true` and no `$time` key. -/
theorem updateParams_timestamp_branch_witness :
    mapGet (updateParams ⟨[], [], [], []⟩ []
        ⟨[], some IgnoreTime, "$set".toList, []⟩) "$ignore_time".toList =
        some (Value.vBool true) ∧
    mapGet (updateParams ⟨[], [], [], []⟩ []
        ⟨[], some IgnoreTime, "$set".toList, []⟩) "$time".toList = none :=
  (updateParams_timestamp_branch ⟨[], [], [], []⟩ []
    ⟨[], some IgnoreTime, "$set".toList, []⟩ (by decide) (by decide)).1 rfl

/-- C3: for every `Track` call, the endpoint name handed to `send` is
`import` exactly when a timestamp is present and lies more than 5 days
(432000 seconds) before `now`; otherwise it is `track`. -/
theorem trackEventType_import_iff (now : Int) (e : Event) :
    (trackEventType now e = "import".toList ↔
       ∃ tr, e.Timestamp = some tr ∧ now - tr.Unix > 432000) ∧
    (trackEventType now e = "track".toList ↔
       ¬ ∃ tr, e.Timestamp = some tr ∧ now - tr.Unix > 432000) ∧
    (∀ m w distinctId eventName, mixpanel.Track m w now distinctId eventName e =
       send m w (trackEventType now e) (trackParams m distinctId eventName e) e.IP.isEmpty) := by
  refine ⟨?_, ?_, fun m w distinctId eventName => rfl⟩
  · rw [trackEventType]
    cases hts : e.Timestamp with
    | none => simp [hts]
    | some tr =>
      simp only []
      by_cases hlt : tr.Unix < now - 432000
      · rw [if_pos hlt]
        simp only [true_iff]
        exact ⟨tr, rfl, by omega⟩
      · rw [if_neg hlt]
        constructor
        · intro h
          exact absurd h (by decide)
        · rintro ⟨tr', htr', hgt⟩
          injection htr' with he
          subst he
          omega
  · rw [trackEventType]
    cases hts : e.Timestamp with
    | none => simp
    | some tr =>
      simp only []
      by_cases hlt : tr.Unix < now - 432000
      · rw [if_pos hlt]
        constructor
        · intro h
          exact absurd h (by decide)
        · intro h
          exact absurd ⟨tr, rfl, by omega⟩ h
      · rw [if_neg hlt]
        simp only [true_iff]
        rintro ⟨tr', htr', hgt⟩
        injection htr' with he
        subst he
        omega

/-- C9: custom properties are merged after the reserved keys are seeded,
so for every key, the last matching custom property (including the
reserved names `token`, `distinct_id`, `ip`, `time`) determines the final
`Track` property map; and in `Update` the entry keyed by the operation
name is assigned last, so it always maps to the update's property map,
even for the reserved `$`-keys. -/
theorem props_overwrite (m : mixpanel) (distinctId : Str) (e : Event) (u : Update) :
    (∀ k v, lookupLast e.Properties k = some v →
       mapGet (trackProps m distinctId e) k = some v) ∧
    mapGet (updateParams m distinctId u) u.Operation = some (Value.vObj u.Properties) := by
  constructor
  · intro k v hl
    rw [trackProps]
    rw [mapGet_mergeProps, hl]
  · rw [updateParams]
    rw [mapGet_mapSet_self]

/-- Witness for C9: a custom property named `token` replaces the seeded
project token, and a `$token` operation name replaces the seeded
`$token` entry. -/
theorem props_overwrite_witness :
    lookupLast [("token".toList, Value.vStr ['x'])] "token".toList =
        some (Value.vStr ['x']) ∧
    mapGet (trackProps ⟨['s'], [], [], []⟩ []
        ⟨[], none, [("token".toList, Value.vStr ['x'])]⟩) "token".toList =
      some (Value.vStr ['x']) ∧
    mapGet (updateParams ⟨['s'], [], [], []⟩ []
        ⟨[], none, "$token".toList, [(['p'], Value.vBool true)]⟩) "$token".toList =
      some (Value.vObj [(['p'], Value.vBool true)]) := by
  refine ⟨rfl, ?_, ?_⟩
  · exact (props_overwrite ⟨['s'], [], [], []⟩ []
      ⟨[], none, [("token".toList, Value.vStr ['x'])]⟩
      ⟨[], none, "$token".toList, [(['p'], Value.vBool true)]⟩).1
      "token".toList (Value.vStr ['x']) rfl
  · exact (props_overwrite ⟨['s'], [], [], []⟩ []
      ⟨[], none, [("token".toList, Value.vStr ['x'])]⟩
      ⟨[], none, "$token".toList, [(['p'], Value.vBool true)]⟩).2

/-! ## URL structure -/

theorem send_requests (m : mixpanel) (w : World) (eventType : Str) (params : Value)
    (auto : Bool) :
    (send m w eventType params auto).2 = [] ∨
    ∃ data, w.marshal params = Except.ok data ∧
      (send m w eventType params auto).2 = [sendUrl m eventType data auto] := by
  rw [send]
  cases hm : w.marshal params with
  | error e => exact Or.inl rfl
  | ok data =>
    simp only []
    cases hn : w.newReq (sendUrl m eventType data auto) with
    | none => exact Or.inl rfl
    | some u =>
      simp only []
      cases ht : w.transport (sendUrl m eventType data auto) with
      | fail msg => exact Or.inr ⟨data, rfl, rfl⟩
      | resp status br =>
        cases br with
        | error msg => exact Or.inr ⟨data, rfl, rfl⟩
        | ok body =>
          simp only []
          by_cases hc : (interpretBody (sendUrl m eventType data auto) status body).Code ≠ 1
          · rw [if_pos hc]
            exact Or.inr ⟨data, rfl, rfl⟩
          · rw [if_neg hc]
            exact Or.inr ⟨data, rfl, rfl⟩

theorem sendUrl_split (m : mixpanel) (eventType data : Str) (auto : Bool) :
    sendUrl m eventType data auto =
      (m.ApiURL ++ "/".toList ++ eventType) ++ '?' :: sendQuery data auto := by
  rw [sendUrl, sendQuery]
  rw [show ("?data=".toList : Str) = '?' :: "data=".toList from by decide]
  simp [List.append_assoc]

theorem sendQuery_frag (data : Str) (auto : Bool) :
    ("ip=1".toList ∈ splitAmp (sendQuery data auto)) ↔ auto = true := by
  have hnoamp : ∀ c ∈ "data=".toList ++ to64 data, c ≠ '&' := by
    intro c hc
    rcases List.mem_append.mp hc with h | h
    · intro he
      subst he
      revert h
      decide
    · intro he
      subst he
      exact amp_notin_to64 data h
  have hv : ∀ c ∈ ("verbose=1".toList : Str), c ≠ '&' := by decide
  have hd : ¬(("ip=1".toList : Str) = "data=".toList ++ to64 data) := by
    intro h
    rw [show ("ip=1".toList : Str) = 'i' :: "p=1".toList from by decide,
      show ("data=".toList : Str) = 'd' :: "ata=".toList from by decide] at h
    simp at h
  cases auto with
  | false =>
    rw [sendQuery, if_neg (by simp : ¬(false = true)), List.append_nil,
      show ("&verbose=1".toList : Str) = '&' :: "verbose=1".toList from by decide,
      splitAmp_append _ _ hnoamp, splitAmp_amp, splitAmp_no_amp _ hv]
    simp only [List.headI, List.tail_cons, List.append_nil]
    constructor
    · intro h
      rcases List.mem_cons.mp h with h | h
      · exact absurd h hd
      · rcases List.mem_cons.mp h with h | h
        · exact absurd h (by decide)
        · simp at h
    · intro h
      exact absurd h (by simp)
  | true =>
    rw [sendQuery, if_pos rfl,
      show ("&ip=1".toList : Str) = '&' :: "ip=1".toList from by decide,
      show ("&verbose=1".toList : Str) = '&' :: "verbose=1".toList from by decide,
      List.append_assoc, List.cons_append,
      splitAmp_append _ _ hnoamp, splitAmp_amp,
      splitAmp_append "ip=1".toList ('&' :: "verbose=1".toList) (by decide),
      splitAmp_amp, splitAmp_no_amp _ hv]
    simp only [List.headI, List.tail_cons, List.append_nil]
    simp

/-- C4: every HTTP request a `Track` or `Update` call issues has a URL of
the form `<prefix>?<query>` whose `&`-separated query components include
`ip=1` exactly when the call's IP field is empty; for an `Alias` call the
components never include `ip=1`. -/
theorem ip_flag_query (m : mixpanel) (w : World) (now : Int)
    (distinctId eventName newId : Str) (e : Event) (u : Update) :
    (∀ url, url ∈ (mixpanel.Track m w now distinctId eventName e).2 →
       ∃ pre q, url = pre ++ '?' :: q ∧
         ("ip=1".toList ∈ splitAmp q ↔ e.IP = [])) ∧
    (∀ url, url ∈ (mixpanel.UpdateUser m w distinctId u).2 →
       ∃ pre q, url = pre ++ '?' :: q ∧
         ("ip=1".toList ∈ splitAmp q ↔ u.IP = [])) ∧
    (∀ url, url ∈ (mixpanel.Alias m w distinctId newId).2 →
       ∃ pre q, url = pre ++ '?' :: q ∧ "ip=1".toList ∉ splitAmp q) := by
  refine ⟨?_, ?_, ?_⟩
  · intro url hurl
    rw [mixpanel.Track] at hurl
    rcases send_requests m w (trackEventType now e) (trackParams m distinctId eventName e)
        e.IP.isEmpty with h | ⟨data, hm, h⟩
    · rw [h] at hurl
      exact absurd hurl (by simp)
    · rw [h] at hurl
      rw [List.mem_singleton.mp hurl, sendUrl_split]
      refine ⟨_, _, rfl, ?_⟩
      rw [sendQuery_frag]
      exact List.isEmpty_iff
  · intro url hurl
    rw [mixpanel.UpdateUser] at hurl
    rcases send_requests m w "engage".toList (Value.vObj (updateParams m distinctId u))
        u.IP.isEmpty with h | ⟨data, hm, h⟩
    · rw [h] at hurl
      exact absurd hurl (by simp)
    · rw [h] at hurl
      rw [List.mem_singleton.mp hurl, sendUrl_split]
      refine ⟨_, _, rfl, ?_⟩
      rw [sendQuery_frag]
      exact List.isEmpty_iff
  · intro url hurl
    rw [mixpanel.Alias] at hurl
    rcases send_requests m w "track".toList (aliasParams m distinctId newId)
        false with h | ⟨data, hm, h⟩
    · rw [h] at hurl
      exact absurd hurl (by simp)
    · rw [h] at hurl
      rw [List.mem_singleton.mp hurl, sendUrl_split]
      refine ⟨_, _, rfl, ?_⟩
      rw [sendQuery_frag]
      simp

/-- Witness for C4: a concrete `Track` call with empty IP issues one
request whose query components include `ip=1`. -/
theorem ip_flag_query_witness :
    ∃ pre q, sendUrl ⟨[], [], [], []⟩ "track".toList
        (jsonEncode (trackParams ⟨[], [], [], []⟩ [] [] ⟨[], none, []⟩)) true =
          pre ++ '?' :: q ∧
      ("ip=1".toList ∈ splitAmp q ↔ (⟨[], none, []⟩ : Event).IP = []) :=
  (ip_flag_query ⟨[], [], [], []⟩
      (constWorld (TransportResult.resp 200 (Except.ok []))) 0 [] [] []
      ⟨[], none, []⟩ ⟨[], none, [], []⟩).1
    (sendUrl ⟨[], [], [], []⟩ "track".toList
      (jsonEncode (trackParams ⟨[], [], [], []⟩ [] [] ⟨[], none, []⟩)) true)
    (by decide)

/-- C5: for every parameter map (an arbitrary `Value` whose JSON text is
byte-sized), the composed URL carries `data=<base64 of the JSON text>` in
its query, and base64-decoding then JSON-decoding that `data` parameter
reproduces exactly the parameter map. -/
theorem data_param_roundtrip (m : mixpanel) (eventType : Str) (auto : Bool) (pv : Value)
    (h : ∀ c ∈ jsonEncode pv, c.toNat < 256) :
    sendUrl m eventType (jsonEncode pv) auto =
      (m.ApiURL ++ "/".toList ++ eventType) ++ '?' ::
        ("data=".toList ++ to64 (jsonEncode pv)
          ++ (if auto then "&ip=1".toList else []) ++ "&verbose=1".toList) ∧
    decodeData (to64 (jsonEncode pv)) = some pv :=
  ⟨sendUrl_split m eventType (jsonEncode pv) auto, decodeData_to64 pv h⟩

/-- Witness for C5: the parameter map a concrete `Track` call builds
round-trips through base64 and JSON. -/
theorem data_param_roundtrip_witness :
    decodeData (to64 (jsonEncode (trackParams ⟨[], [], [], []⟩ [] [] ⟨[], none, []⟩))) =
      some (trackParams ⟨[], [], [], []⟩ [] [] ⟨[], none, []⟩) :=
  (data_param_roundtrip ⟨[], [], [], []⟩ [] false
    (trackParams ⟨[], [], [], []⟩ [] [] ⟨[], none, []⟩) (by decide)).2

/-- C6: the request URL is composed as
`<ApiURL>/<eventType>?data=<base64>` with `&ip=1` appended exactly when
auto-geolocation was requested and `&verbose=1` appended unconditionally;
the base64 text uses the standard alphabet (plus `=` padding) and comes in
padded 4-character groups; and every request `send` issues goes to exactly
this URL. -/
theorem sendUrl_composition (m : mixpanel) (eventType data : Str) (auto : Bool) :
    sendUrl m eventType data auto =
      m.ApiURL ++ "/".toList ++ eventType ++ "?data=".toList ++ to64 data
        ++ (if auto then "&ip=1".toList else []) ++ "&verbose=1".toList ∧
    to64 data = b64encode (data.map Char.toNat) ∧
    (∀ c ∈ to64 data, c ∈ b64alpha ∨ c = '=') ∧
    (to64 data).length % 4 = 0 ∧
    (∀ w params, w.marshal params = Except.ok data →
       ∀ url ∈ (send m w eventType params auto).2,
         url = sendUrl m eventType data auto) := by
  refine ⟨rfl, rfl, ?_, ?_, ?_⟩
  · intro c hc
    exact b64encode_chars (data.map Char.toNat).length _ c le_rfl hc
  · exact b64encode_len (data.map Char.toNat).length _ le_rfl
  · intro w params hm url hurl
    rcases send_requests m w eventType params auto with h | ⟨data2, hm2, h⟩
    · rw [h] at hurl
      exact absurd hurl (by simp)
    · rw [hm] at hm2
      injection hm2 with he
      subst he
      rw [h] at hurl
      exact List.mem_singleton.mp hurl

/-- Witness for C6: the base64 text of a concrete byte is drawn from the
standard alphabet and is padded to a 4-character group. -/
theorem sendUrl_composition_witness :
    ('Y' ∈ b64alpha ∨ 'Y' = '=') ∧ (to64 ['a']).length % 4 = 0 :=
  ⟨(sendUrl_composition ⟨[], [], [], []⟩ [] ['a'] false).2.2.1 'Y' (by decide),
   (sendUrl_composition ⟨[], [], [], []⟩ [] ['a'] false).2.2.2.1⟩

end MixpanelSpec
